import Mathlib

/-!
Verification of the correlated request/response channel of the
vscode-refactor-mcp repository.

The development shallowly embeds the relevant source files:

* `src/mcp-server/src/vscode-client.ts` (class `VSCodeClient`, WebSocket
  variant; the IPC variant in `src/packages/shared/src/tool.ts` has the
  same request-correlation, close and reconnection logic) — modelled as a
  pure state machine `ClientState` / `clientStep`.  JavaScript runs each
  event handler to completion on a single thread, so every handler is one
  atomic transition.
* `src/packages/extension/src/ipc/server.ts` (class `IpcServer`) — the
  per-connection receive buffer and `processMessage` dispatch.
* `src/packages/server/src/tools/rename-file.ts` — the
  setting-enforcement block of the `rename_file` tool.
* `src/packages/server/src/config.ts` and the mcp-server config —
  `RECONNECT_DELAY`, `MAX_RECONNECT_ATTEMPTS`, `REQUEST_TIMEOUT`.

Conventions: JavaScript strings on the wire are `String`; the stream
codec works on `List Char` (the character sequence of the wire bytes).
`JSON.parse` / `JSON.stringify` are external to the modelled logic: a
handler that begins with `JSON.parse(message)` is embedded as a function
of the parse outcome (`Option`/parsed value), the `none` case being the
parse exception caught by the surrounding `try`.  The command handler
bodies (VSCode workspace edits, configuration reads) are external
collaborators and enter as oracle parameters.  Promise resolutions and
rejections delivered to callers are recorded in a `resolutions` history
field; `setTimeout` handles are allocated from a counter, mirroring the
uniqueness of Node timer objects.
-/

namespace VsMcp

/-- JSON-like values appearing in request arguments, response results and
settings. -/
inductive Val where
  | null
  | bool (b : Bool)
  | num (n : Int)
  | str (s : String)
  | obj (fields : List (String × Val))

/-- Request envelope, from `src/shared/protocol.ts`:
`{ id, command, arguments }`. -/
structure VSCodeRequest where
  id : String
  command : String
  arguments : List (String × Val)

/-- Response envelope, from `src/shared/protocol.ts`:
`{ id, result?, error? }`. -/
structure VSCodeResponse where
  id : String
  result : Option Val
  error : Option String

/-- JavaScript truthiness of `response.error` as used by
`if (response.error)` in `handleMessage`: absent and the empty string are
falsy. -/
def errTruthy : Option String → Bool
  | none => false
  | some s => s != ""

/-- Configuration constant `RECONNECT_DELAY` (ms), identical in
`WEBSOCKET_CONFIG` (mcp-server) and `CLIENT_CONFIG`
(`src/packages/server/src/config.ts`). -/
def RECONNECT_DELAY : Nat := 1000

/-- Configuration constant `MAX_RECONNECT_ATTEMPTS`, identical in both
client configs. -/
def MAX_RECONNECT_ATTEMPTS : Nat := 5

/-- Configuration constant `REQUEST_TIMEOUT` (ms), identical in both
client configs. -/
def REQUEST_TIMEOUT : Nat := 5000

/-!
## Stream codec: newline splitting with a carry buffer

Embeds the inline framing code of `IpcServer.handleConnection`
(`src/packages/extension/src/ipc/server.ts` lines 102-125) and of the IPC
`VSCodeClient.connect` data handler (`src/packages/shared/src/tool.ts`
lines 164-175):

```
buffer += data.toString();
const lines = buffer.split("\n");
buffer = lines.pop() || "";
for (const line of lines) { if (line.trim()) { process(line); } }
```
-/

/-- Semantics of `s.split("\n")` followed by `lines.pop()`: the pair of
the complete (newline-terminated) lines and the trailing partial line.
`JS "a\nb".split` gives `["a","b"]`, so `splitLines "a\nb" = (["a"], "b")`
after the pop. -/
def splitLines : List Char → List (List Char) × List Char
  | [] => ([], [])
  | c :: cs =>
    if c = '\n' then (([] : List Char) :: (splitLines cs).1, (splitLines cs).2)
    else
      match splitLines cs with
      | ([], r) => ([], c :: r)
      | (l :: ls, r) => ((c :: l) :: ls, r)

/-- Complete lines produced at the seam when text with trailing partial
line `r1` is followed by more text: the first complete line of the
continuation absorbs `r1`. -/
def seamFst (r1 : List Char) (p2 : List (List Char) × List Char) : List (List Char) :=
  match p2.1 with
  | [] => []
  | h :: t => (r1 ++ h) :: t

/-- Trailing partial line at the seam (see `seamFst`). -/
def seamSnd (r1 : List Char) (p2 : List (List Char) × List Char) : List Char :=
  match p2.1 with
  | [] => r1 ++ p2.2
  | _ :: _ => p2.2

/-- One `data` event of the receive loop: append the chunk to the buffer,
split on newlines, keep the partial last line as the new buffer and hand
the complete lines to the per-line loop.  Returns
(new buffer, complete lines delivered, in order). -/
def dataEvent (buffer chunk : List Char) : List Char × List (List Char) :=
  ((splitLines (buffer ++ chunk)).2, (splitLines (buffer ++ chunk)).1)

/-- Run the receive loop over a sequence of chunks, starting from a given
buffer; returns the final buffer and all complete lines delivered. -/
def runChunks : List Char → List (List Char) → List Char × List (List Char)
  | buf, [] => (buf, [])
  | buf, ch :: chs =>
    ((runChunks (dataEvent buf ch).1 chs).1,
      (dataEvent buf ch).2 ++ (runChunks (dataEvent buf ch).1 chs).2)

/-!
## Server side: IpcServer.processMessage
-/

/-- Oracles for the external VSCode operations invoked by the command
branches of `IpcServer.processMessage` (workspace edits, configuration
reads and writes, symbol providers).  `Except.error e` models a thrown
`Error` whose message is `e`, caught by the try/catch that encloses the
branch. -/
structure VsHandlers where
  renameFile : List (String × Val) → Except String Bool
  getSetting : List (String × Val) → Except String Val
  setSetting : List (String × Val) → Except String Unit
  renameSymbol : List (String × Val) → Except String Val

/-- State of one accepted peer connection of `IpcServer`: the receive
buffer, the frames written back so far, whether the socket is still in
the servers socket set (not destroyed), and the logger output. -/
structure ConnState where
  buffer : List Char
  outbox : List VSCodeResponse
  isOpen : Bool
  errorLog : List String

/-- Embedding of `IpcServer.processMessage`
(`src/packages/extension/src/ipc/server.ts` lines 138-234).  The argument
`parsed` is the outcome of `JSON.parse(message)`: `none` when the parse
throws (outer catch: log, no reply, connection kept).  On a parsed
request the switch dispatches on `request.command`; the default branch
answers `error = "Unknown command: <name>"`.  Every path ends with
`socket.write(JSON.stringify(response) + "\n")`. -/
def processMessage (h : VsHandlers) (conn : ConnState)
    (parsed : Option VSCodeRequest) : ConnState :=
  match parsed with
  | none => { conn with errorLog := conn.errorLog ++ ["Error parsing message:"] }
  | some request =>
    let response : VSCodeResponse :=
      if request.command = "renameFile" then
        match h.renameFile request.arguments with
        | .ok success => ⟨request.id, some (Val.obj [("success", Val.bool success)]), none⟩
        | .error e => ⟨request.id, none, some e⟩
      else if request.command = "getSetting" then
        match h.getSetting request.arguments with
        | .ok value => ⟨request.id, some (Val.obj [("value", value)]), none⟩
        | .error e => ⟨request.id, none, some e⟩
      else if request.command = "setSetting" then
        match h.setSetting request.arguments with
        | .ok _ => ⟨request.id, some (Val.obj [("success", Val.bool true)]), none⟩
        | .error e => ⟨request.id, none, some e⟩
      else if request.command = "renameSymbol" then
        match h.renameSymbol request.arguments with
        | .ok value => ⟨request.id, some value, none⟩
        | .error e => ⟨request.id, none, some e⟩
      else
        ⟨request.id, none, some ("Unknown command: " ++ request.command)⟩
    { conn with outbox := conn.outbox ++ [response] }

/-!
## Client side: VSCodeClient state machine
-/

/-- The `readyState` of the underlying transport object. -/
inductive WsReadyState where
  | CONNECTING | OPEN | CLOSING | CLOSED
  deriving DecidableEq

/-- How a pending promise was settled. -/
inductive Outcome where
  | resolved (v : Option Val)
  | rejectedErr (msg : String)

/-- State of one `VSCodeClient` instance plus the scheduler facts the
handlers depend on.  `pending` is the `pendingRequests` map (insertion
ordered, as a JS Map); a pending value stores the `setTimeout` handle of
its timeout.  `activeTimers` are the request-timeout timers that have
been set and neither cleared nor fired, each with the request id its
callback captured.  `reconnectTimers` are the delays of scheduled,
not-yet-fired reconnection timeouts, and `reconnectsScheduled` counts all
reconnection attempts ever scheduled.  `closeQueued` counts transport
close events guaranteed to be delivered by an earlier explicit
`ws.close()`.  `sent` records frames written to the transport;
`resolutions` records every promise settlement handed to a caller as
(request id, timeout handle of the settled record, outcome). -/
structure ClientState where
  ws : Option WsReadyState
  reconnectAttempts : Nat
  requestId : Nat
  pending : List (String × Nat)
  nextTimer : Nat
  activeTimers : List (Nat × String)
  reconnectTimers : List Nat
  reconnectsScheduled : Nat
  closeQueued : Nat
  sent : List VSCodeRequest
  resolutions : List (String × Nat × Outcome)
  log : List String

/-- Lookup in the pending map (`pendingRequests.get(id)`), returning the
stored timeout handle. -/
def mapGet (m : List (String × Nat)) (k : String) : Option Nat :=
  (m.find? fun p => p.1 == k).map fun p => p.2

/-- `pendingRequests.set(id, v)`: replace in place when the key exists,
append otherwise (JS Map insertion semantics). -/
def mapSet (m : List (String × Nat)) (k : String) (v : Nat) : List (String × Nat) :=
  if m.any (fun p => p.1 == k) then m.map fun p => if p.1 == k then (k, v) else p
  else m ++ [(k, v)]

/-- `pendingRequests.delete(id)`. -/
def mapDelete (m : List (String × Nat)) (k : String) : List (String × Nat) :=
  m.filter fun p => p.1 != k

/-- `generateRequestId`: the template
`req_${++this.requestId}_${Date.now()}` after the increment, with the
current clock value passed in. -/
def mkRequestId (counter now : Nat) : String :=
  "req_" ++ toString counter ++ "_" ++ toString now

/-- Embedding of `VSCodeClient.sendRequest`
(`src/mcp-server/src/vscode-client.ts` lines 56-81).  The guard
`!this.ws || this.ws.readyState !== WebSocket.OPEN` throws
`WebSocket is not connected` before any state is touched.  Otherwise a
fresh id is generated, a timeout is set, the pending record is stored and
the encoded request is written to the socket. -/
def sendRequest (s : ClientState) (command : String)
    (args : List (String × Val)) (now : Nat) : Except String ClientState :=
  if s.ws ≠ some WsReadyState.OPEN then
    .error "WebSocket is not connected"
  else
    let rid := s.requestId + 1
    let id := mkRequestId rid now
    let t := s.nextTimer
    .ok { s with
      requestId := rid
      nextTimer := t + 1
      activeTimers := s.activeTimers ++ [(t, id)]
      pending := mapSet s.pending id t
      sent := s.sent ++ [⟨id, command, args⟩] }

/-- The timeout callback set in `sendRequest`:
`this.pendingRequests.delete(id); reject(new Error("Request timeout"))`.
A timer that was cleared (or never set) does not fire, so an inactive
handle is a no-op.  Firing consumes the timer. -/
def fireTimeout (s : ClientState) (t : Nat) : ClientState :=
  match s.activeTimers.find? (fun q => q.1 == t) with
  | none => s
  | some q =>
    { s with
      activeTimers := s.activeTimers.filter fun q2 => q2.1 != t
      pending := mapDelete s.pending q.2
      resolutions := s.resolutions ++ [(q.2, t, Outcome.rejectedErr "Request timeout")] }

/-- Embedding of `VSCodeClient.handleMessage`
(`src/mcp-server/src/vscode-client.ts` lines 103-121).  `parsed = none`
is the `JSON.parse` exception: the catch only logs.  On a parsed
response, the pending record is looked up by id; if absent, nothing
happens; if present, its timeout is cleared, it is removed from the map,
and the caller is rejected when `response.error` is truthy, resolved with
`response.result` otherwise. -/
def handleMessage (s : ClientState) (parsed : Option VSCodeResponse) : ClientState :=
  match parsed with
  | none => { s with log := s.log ++ ["Error handling message:"] }
  | some response =>
    match mapGet s.pending response.id with
    | none => s
    | some t =>
      { s with
        activeTimers := s.activeTimers.filter fun q => q.1 != t
        pending := mapDelete s.pending response.id
        resolutions := s.resolutions ++
          [(response.id, t,
            if errTruthy response.error then
              Outcome.rejectedErr (response.error.getD "")
            else Outcome.resolved response.result)] }

/-- Embedding of `VSCodeClient.close`
(`src/mcp-server/src/vscode-client.ts` lines 86-98). `if (this.ws)`:
`this.ws.close()` starts the close handshake — the socket object, with
its listeners still attached, will later emit a `close` event
(`closeQueued`) — and `this.ws = null`.  Then every pending request has
its timeout cleared and is rejected with `Connection closed`, and the map
is cleared. -/
def closeClient (s : ClientState) : ClientState :=
  let s1 : ClientState :=
    match s.ws with
    | some _ => { s with ws := none, closeQueued := s.closeQueued + 1 }
    | none => s
  { s1 with
    activeTimers := s1.activeTimers.filter fun q => ! s1.pending.any fun p => p.2 == q.1
    resolutions := s1.resolutions ++
      s1.pending.map fun p => (p.1, p.2, Outcome.rejectedErr "Connection closed")
    pending := [] }

/-- Embedding of `VSCodeClient.handleDisconnect`
(`src/mcp-server/src/vscode-client.ts` lines 126-141): null the
transport; if the attempt counter is below `MAX_RECONNECT_ATTEMPTS`,
increment it and schedule `connect()` after `RECONNECT_DELAY`; otherwise
only log `Max reconnection attempts reached`.  The pending map is not
touched. -/
def handleDisconnect (s : ClientState) : ClientState :=
  if s.reconnectAttempts < MAX_RECONNECT_ATTEMPTS then
    { s with
      ws := none
      reconnectAttempts := s.reconnectAttempts + 1
      log := s.log ++ ["Attempting to reconnect"]
      reconnectTimers := s.reconnectTimers ++ [RECONNECT_DELAY]
      reconnectsScheduled := s.reconnectsScheduled + 1 }
  else
    { s with ws := none, log := s.log ++ ["Max reconnection attempts reached"] }

/-- The transport construction inside `connect()`:
`this.ws = new WebSocket(...)` replaces the transport with a fresh
connecting socket. -/
def connectClient (s : ClientState) : ClientState :=
  { s with ws := some WsReadyState.CONNECTING }

/-- The `open` handler installed by `connect()`: log, reset the attempt
counter to 0, resolve the connect promise.  An `open` event only exists
for a connecting socket. -/
def handleOpen (s : ClientState) : ClientState :=
  if s.ws = some WsReadyState.CONNECTING then
    { s with
      ws := some WsReadyState.OPEN
      reconnectAttempts := 0
      log := s.log ++ ["Connected to VSCode extension"] }
  else s

/-- The events the JavaScript event loop can deliver to one client. -/
inductive ClientEvent where
  | sendReq (command : String) (args : List (String × Val)) (now : Nat)
  | recvMsg (parsed : Option VSCodeResponse)
  | timerFires (t : Nat)
  | transportClosed
  | ownerClose
  | opened
  | reconnectTimerFires

/-- One atomic handler execution.  `transportClosed` is the `close` event
of a socket whose listeners point at this client: it exists either
because an explicit `ws.close()` queued one, or spontaneously for the
current socket (network drop); both run `handleDisconnect`.  A throwing
`sendRequest` leaves the state unchanged.  Disabled events (inactive
timers, no socket) are identities. -/
def clientStep (s : ClientState) (e : ClientEvent) : ClientState :=
  match e with
  | .sendReq c a now =>
    match sendRequest s c a now with
    | .ok s1 => s1
    | .error _ => s
  | .recvMsg m => handleMessage s m
  | .timerFires t => fireTimeout s t
  | .transportClosed =>
    if s.closeQueued > 0 then handleDisconnect { s with closeQueued := s.closeQueued - 1 }
    else
      match s.ws with
      | some _ => handleDisconnect s
      | none => s
  | .ownerClose => closeClient s
  | .opened => handleOpen s
  | .reconnectTimerFires =>
    match s.reconnectTimers with
    | [] => s
    | _ :: rest => connectClient { s with reconnectTimers := rest }

/-- Run a sequence of events. -/
def clientRun (s : ClientState) : List ClientEvent → ClientState
  | [] => s
  | e :: es => clientRun (clientStep s e) es

/-- Well-formedness of a client state, established by construction and
preserved by every event: distinct pending keys (a JS Map), distinct
pending timeout handles, every pending record owns an active timer that
captured its id, distinct active timer handles, all handles below the
allocation counter, and the attempt counter within its bound. -/
@[reducible] def ClientWF (s : ClientState) : Prop :=
  (s.pending.map Prod.fst).Nodup ∧
  (s.pending.map Prod.snd).Nodup ∧
  (∀ p ∈ s.pending, (p.2, p.1) ∈ s.activeTimers) ∧
  (s.activeTimers.map Prod.fst).Nodup ∧
  (∀ q ∈ s.activeTimers, q.1 < s.nextTimer) ∧
  s.reconnectAttempts ≤ MAX_RECONNECT_ATTEMPTS

/-- Number of settlements recorded for the pending record whose timeout
handle is `t`. -/
def countRes (t : Nat) (s : ClientState) : Nat :=
  (s.resolutions.filter fun r => r.2.1 == t).length

/-- A record with timeout handle `t` is retired for good: no live timer,
no pending entry, and the handle can never be re-allocated. -/
@[reducible] def Retired (s : ClientState) (t : Nat) : Prop :=
  (∀ q ∈ s.activeTimers, q.1 ≠ t) ∧
  (∀ p ∈ s.pending, p.2 ≠ t) ∧
  t < s.nextTimer

/-- The ghost quantity reconnectsScheduled + (MAX_RECONNECT_ATTEMPTS -
reconnectAttempts): invariant under every event except a successful
`open`, which refreshes the budget. -/
def reconnectBudget (s : ClientState) : Nat :=
  s.reconnectsScheduled + (MAX_RECONNECT_ATTEMPTS - s.reconnectAttempts)

/-!
## rename_file tool of packages/server (setting enforcement block)
-/

/-- The condition `current?.value === "always"` from
`src/packages/server/src/tools/rename-file.ts` line 68 (`current` is the
`getSetting` reply, `v` its `value` field, absent when undefined). -/
def isAlways : Option Val → Bool
  | some (Val.str s) => s == "always"
  | _ => false

/-- Embedding of the setting-enforcement block of the `rename_file` tool
(`src/packages/server/src/tools/rename-file.ts` lines 61-76): given the
current workspace value of `typescript.updateImportsOnFileMove.enabled`,
the arguments of the `setSetting` request it sends, or `none` when the
value already is `always` and no request is sent. -/
def renameFileSettingWrite (v : Option Val) : Option (List (String × Val)) :=
  if isAlways v then none
  else some
    [("key", Val.str "typescript.updateImportsOnFileMove.enabled"),
     ("value", Val.str "alweys"),
     ("scope", Val.str "workspace")]

/-- The `importsUpdated` flag computed at line 68 of the same block. -/
def renameFileImportsUpdated (v : Option Val) : Bool := isAlways v

/-- The argument object of the `setSetting` request sent by the
enforcement block (the literal arguments at lines 71-75 of
`src/packages/server/src/tools/rename-file.ts`). -/
def alweysArgs : List (String × Val) :=
  [("key", Val.str "typescript.updateImportsOnFileMove.enabled"),
   ("value", Val.str "alweys"),
   ("scope", Val.str "workspace")]

/-- Field lookup in a request argument object. -/
def lookupArg (k : String) (args : List (String × Val)) : Option Val :=
  (args.find? fun p => p.1 == k).map fun p => p.2

/-!
## Concrete states used by counterexamples and witnesses
-/

/-- A connected client with one in-flight request `req_1_7` whose timeout
handle is 0. -/
def statePending1 : ClientState :=
  { ws := some WsReadyState.OPEN
    reconnectAttempts := 0
    requestId := 1
    pending := [("req_1_7", 0)]
    nextTimer := 1
    activeTimers := [(0, "req_1_7")]
    reconnectTimers := []
    reconnectsScheduled := 0
    closeQueued := 0
    sent := [⟨"req_1_7", "ping", []⟩]
    resolutions := []
    log := [] }

/-- A freshly connected idle client. -/
def stateIdle : ClientState :=
  { ws := some WsReadyState.OPEN
    reconnectAttempts := 0
    requestId := 0
    pending := []
    nextTimer := 0
    activeTimers := []
    reconnectTimers := []
    reconnectsScheduled := 0
    closeQueued := 0
    sent := []
    resolutions := []
    log := [] }

/-- A disconnected client (initial state before `connect()`). -/
def stateDown : ClientState :=
  { stateIdle with ws := none }

/-- A response matching the pending request of `statePending1`. -/
def respPong : VSCodeResponse := ⟨"req_1_7", some (Val.str "pong"), none⟩

/-- A response whose id matches no pending request of `statePending1`. -/
def respUnknown : VSCodeResponse := ⟨"req_9_9", none, none⟩

/-- Trivial handler oracles for witnesses. -/
def trivialHandlers : VsHandlers :=
  { renameFile := fun _ => .ok true
    getSetting := fun _ => .ok Val.null
    setSetting := fun _ => .ok ()
    renameSymbol := fun _ => .ok Val.null }

/-- An idle server connection. -/
def connIdle : ConnState :=
  { buffer := [], outbox := [], isOpen := true, errorLog := [] }

/-!
## Theorems
### Codec lemmas
-/

theorem splitLines_append (a b : List Char) :
    splitLines (a ++ b) =
      ((splitLines a).1 ++ seamFst (splitLines a).2 (splitLines b),
        seamSnd (splitLines a).2 (splitLines b)) := by
  induction a with
  | nil =>
    simp only [List.nil_append, splitLines]
    cases hb : splitLines b with
    | mk L2 R2 => cases L2 <;> simp [seamFst, seamSnd]
  | cons c cs ih =>
    cases hcs : splitLines cs with
    | mk L1 R1 =>
      cases hb : splitLines b with
      | mk L2 R2 =>
        rw [hb] at ih
        by_cases hc : c = '\n'
        · subst hc
          cases L1 <;> cases L2 <;>
            simp [List.cons_append, splitLines, hcs, ih, seamFst, seamSnd]
        · cases L1 <;> cases L2 <;>
            simp [List.cons_append, splitLines, if_neg hc, hcs, ih, seamFst, seamSnd]

theorem splitLines_no_newline (x : List Char) (h : '\n' ∉ x) :
    splitLines x = ([], x) := by
  induction x with
  | nil => rfl
  | cons c cs ih =>
    have hc : ¬ c = '\n' := fun hcc => h (hcc ▸ List.mem_cons_self c cs)
    have hcs : '\n' ∉ cs := fun hm => h (List.mem_cons_of_mem c hm)
    simp [splitLines, if_neg hc, ih hcs]

theorem splitLines_snd_no_newline (x : List Char) : '\n' ∉ (splitLines x).2 := by
  induction x with
  | nil => simp [splitLines]
  | cons c cs ih =>
    by_cases hc : c = '\n'
    · subst hc; simpa [splitLines] using ih
    · cases hcs : splitLines cs with
      | mk L1 R1 =>
        rw [hcs] at ih
        cases L1 with
        | nil =>
          simp only [splitLines, if_neg hc, hcs, List.mem_cons, not_or]
          exact ⟨fun hh => hc hh.symm, ih⟩
        | cons l ls =>
          simpa [splitLines, if_neg hc, hcs] using ih

theorem splitLines_reassemble (x : List Char) :
    (((splitLines x).1.map fun l => l ++ ['\n']).flatten) ++ (splitLines x).2 = x := by
  induction x with
  | nil => rfl
  | cons c cs ih =>
    cases hcs : splitLines cs with
    | mk L1 R1 =>
      rw [hcs] at ih
      by_cases hc : c = '\n'
      · subst hc
        simp only [splitLines, if_pos rfl, hcs, List.map_cons, List.flatten_cons]
        simpa using ih
      · cases L1 with
        | nil =>
          simp only [splitLines, if_neg hc, hcs] at ih ⊢
          simp only [List.map_nil, List.flatten_nil, List.nil_append] at ih ⊢
          rw [ih]
        | cons l ls =>
          simp only [splitLines, if_neg hc, hcs] at ih ⊢
          simp only [List.map_cons, List.flatten_cons, List.append_assoc] at ih ⊢
          rw [← ih]
          simp

theorem runChunks_spec (chs : List (List Char)) :
    ∀ buf : List Char, '\n' ∉ buf →
      runChunks buf chs =
        ((splitLines (buf ++ chs.flatten)).2, (splitLines (buf ++ chs.flatten)).1) := by
  induction chs with
  | nil =>
    intro buf h
    simp [runChunks, splitLines_no_newline buf h]
  | cons ch chs ih =>
    intro buf h
    have hnb : '\n' ∉ (splitLines (buf ++ ch)).2 := splitLines_snd_no_newline _
    have h1 : splitLines ((splitLines (buf ++ ch)).2 ++ chs.flatten) =
        (seamFst (splitLines (buf ++ ch)).2 (splitLines chs.flatten),
          seamSnd (splitLines (buf ++ ch)).2 (splitLines chs.flatten)) := by
      rw [splitLines_append, splitLines_no_newline _ hnb]
      simp
    have h3 := ih _ hnb
    rw [h1] at h3
    have h4 : buf ++ (ch :: chs).flatten = (buf ++ ch) ++ chs.flatten := by
      simp [List.append_assoc]
    rw [h4, splitLines_append]
    simp [runChunks, dataEvent, h3]

/-!
### Claim theorems: codec, dispatcher, tools
-/

/-- C7: for every sequence of chunks delivered on a stream transport, the
receive loop splits messages only at newline characters: the complete
lines it delivers are exactly the newline-terminated lines of the
concatenated stream, in order and each exactly once; reassembling the
delivered lines and the final buffer gives back the stream byte for byte
(so a message split across reads is delivered intact); and the trailing
incomplete line is exactly the final buffer, which contains no newline. -/
theorem C7_chunked_reads_newline_framing (chunks : List (List Char)) :
    (runChunks [] chunks).2 = (splitLines chunks.flatten).1 ∧
    (runChunks [] chunks).1 = (splitLines chunks.flatten).2 ∧
    (((splitLines chunks.flatten).1.map fun l => l ++ ['\n']).flatten)
        ++ (splitLines chunks.flatten).2 = chunks.flatten ∧
    '\n' ∉ (runChunks [] chunks).1 := by
  have h := runChunks_spec chunks [] (by simp)
  refine ⟨?_, ?_, splitLines_reassemble _, ?_⟩ <;>
    simp [h, splitLines_snd_no_newline]

/-- C6: a well-formed request whose command has no registered handler is
answered with a response whose id equals the request id and whose error
is the string "Unknown command: " followed by the command name; nothing
else changes, in particular the connection stays open. -/
theorem C6_unknown_command_reply (h : VsHandlers) (conn : ConnState)
    (req : VSCodeRequest)
    (hr : req.command ∉
      (["renameFile", "getSetting", "setSetting", "renameSymbol"] : List String)) :
    processMessage h conn (some req) =
      { conn with outbox := conn.outbox ++
          [⟨req.id, none, some ("Unknown command: " ++ req.command)⟩] } ∧
    (processMessage h conn (some req)).isOpen = conn.isOpen := by
  simp only [List.mem_cons, List.mem_singleton, not_or] at hr
  obtain ⟨h1, h2, h3, h4, _⟩ := hr
  constructor <;> simp [processMessage, h1, h2, h3, h4]

/-- Witness for C6 at the spec example: id "x", command "doesNotExist". -/
theorem C6_unknown_command_reply_witness :
    processMessage trivialHandlers connIdle (some ⟨"x", "doesNotExist", []⟩) =
      { connIdle with outbox := connIdle.outbox ++
          [⟨"x", none, some ("Unknown command: " ++ "doesNotExist")⟩] } ∧
    (processMessage trivialHandlers connIdle (some ⟨"x", "doesNotExist", []⟩)).isOpen
      = connIdle.isOpen :=
  C6_unknown_command_reply trivialHandlers connIdle ⟨"x", "doesNotExist", []⟩ (by decide)

/-- C8: a malformed (non-JSON-parseable) message is confined to itself on
both sides.  Server (IpcServer.processMessage): the parse failure is only
logged, no reply is written, the connection is not closed, and a
following message is answered exactly as it would have been without the
malformed one.  Client (VSCodeClient.handleMessage): the parse failure is
only logged; the pending map, the timers, the transport and the recorded
promise settlements are untouched, so no pending request is rejected. -/
theorem C8_malformed_message_isolated (h : VsHandlers) (conn : ConnState)
    (s : ClientState) :
    processMessage h conn none =
      { conn with errorLog := conn.errorLog ++ ["Error parsing message:"] } ∧
    (∀ m, (processMessage h (processMessage h conn none) m).outbox =
        (processMessage h conn m).outbox ∧
      (processMessage h (processMessage h conn none) m).isOpen =
        (processMessage h conn m).isOpen) ∧
    handleMessage s none = { s with log := s.log ++ ["Error handling message:"] } := by
  refine ⟨rfl, ?_, rfl⟩
  intro m
  cases m <;> exact ⟨rfl, rfl⟩

/-- C9: in the rename_file tool of packages/server, whenever the current
workspace value of typescript.updateImportsOnFileMove.enabled is not
"always", the enforcement block sends a setSetting request whose value
field is the typo "alweys" — which differs from "always" — so this code
path never sets the setting to "always". -/
theorem C9_rename_file_alweys_typo (v : Option Val)
    (hv : isAlways v = false) :
    renameFileSettingWrite v = some alweysArgs ∧
    lookupArg "value" alweysArgs = some (Val.str "alweys") ∧
    "alweys" ≠ "always" := by
  refine ⟨by simp [renameFileSettingWrite, hv, alweysArgs], rfl, by decide⟩

/-- Witness for C9 at the workspace value "prompt". -/
theorem C9_rename_file_alweys_typo_witness :
    isAlways (some (Val.str "prompt")) = false ∧
    (renameFileSettingWrite (some (Val.str "prompt")) = some alweysArgs ∧
     lookupArg "value" alweysArgs = some (Val.str "alweys") ∧
     "alweys" ≠ "always") :=
  ⟨rfl, C9_rename_file_alweys_typo (some (Val.str "prompt")) rfl⟩

/-- Helper: the pending map is empty after close(). -/
theorem closeClient_pending (s : ClientState) : (closeClient s).pending = [] := by
  unfold closeClient; cases s.ws <;> rfl

/-- Helper: close() rejects every pending request with Connection closed. -/
theorem closeClient_resolutions (s : ClientState) :
    (closeClient s).resolutions = s.resolutions ++
      (s.pending.map fun p => (p.1, p.2, Outcome.rejectedErr "Connection closed")) := by
  unfold closeClient; cases s.ws <;> rfl

/-- Helper: close() clears exactly the timers of pending requests. -/
theorem closeClient_activeTimers (s : ClientState) :
    (closeClient s).activeTimers =
      s.activeTimers.filter fun q => ! s.pending.any fun p => p.2 == q.1 := by
  unfold closeClient; cases s.ws <;> rfl

/-- Helper: the transport is null after close(). -/
theorem closeClient_ws (s : ClientState) : (closeClient s).ws = none := by
  unfold closeClient
  cases hws : s.ws with
  | none => exact hws
  | some w => rfl

/-- Helper: close() does not touch the timer allocation counter. -/
theorem closeClient_nextTimer (s : ClientState) :
    (closeClient s).nextTimer = s.nextTimer := by
  unfold closeClient; cases s.ws <;> rfl

/-- Helper: close() does not touch the reconnection counters. -/
theorem closeClient_reconnect (s : ClientState) :
    (closeClient s).reconnectAttempts = s.reconnectAttempts ∧
    (closeClient s).reconnectsScheduled = s.reconnectsScheduled ∧
    (closeClient s).reconnectTimers = s.reconnectTimers := by
  unfold closeClient; cases s.ws <;> exact ⟨rfl, rfl, rfl⟩

/-- C10: close() rejects every currently pending request with the error
"Connection closed" (in map order), cancels the timeout timer of each
pending request (no remaining active timer handle belongs to a formerly
pending record), and leaves the pending map empty. -/
theorem C10_close_flushes_pending (s : ClientState) :
    (closeClient s).pending = [] ∧
    (closeClient s).resolutions = s.resolutions ++
      (s.pending.map fun p => (p.1, p.2, Outcome.rejectedErr "Connection closed")) ∧
    (closeClient s).activeTimers.filter (fun q => s.pending.any fun p => p.2 == q.1)
      = [] := by
  refine ⟨closeClient_pending s, closeClient_resolutions s, ?_⟩
  rw [closeClient_activeTimers s, List.filter_eq_nil_iff]
  intro a ha
  rcases List.mem_filter.mp ha with ⟨_, hpa⟩
  simp only [Bool.not_eq_true'] at hpa
  simp [hpa]

/-- C5: sendRequest while the client is not Connected (no transport, or
transport not in the OPEN ready state) fails immediately with the
transport error "WebSocket is not connected" and performs no state
change: nothing is written to the transport and nothing is queued. -/
theorem C5_send_requires_connected (s : ClientState) (c : String)
    (a : List (String × Val)) (now : Nat)
    (h : s.ws ≠ some WsReadyState.OPEN) :
    sendRequest s c a now = Except.error "WebSocket is not connected" ∧
    clientStep s (ClientEvent.sendReq c a now) = s := by
  constructor
  · simp [sendRequest, h]
  · simp [clientStep, sendRequest, h]

/-- Witness for C5 on a disconnected client. -/
theorem C5_send_requires_connected_witness :
    (stateDown.ws ≠ some WsReadyState.OPEN) ∧
    (sendRequest stateDown "renameFile" [] 0 =
        Except.error "WebSocket is not connected" ∧
      clientStep stateDown (ClientEvent.sendReq "renameFile" [] 0) = stateDown) :=
  ⟨by decide, C5_send_requires_connected stateDown "renameFile" [] 0 (by decide)⟩

/-!
### Claim theorems: disconnect and reconnection
-/

/-- Helper: in a list of timers with pairwise distinct handles, looking a
member up by its handle finds exactly that member. -/
theorem find_handle_eq (l : List (Nat × String)) (q : Nat × String)
    (hq : q ∈ l) (hnd : (l.map Prod.fst).Nodup) :
    l.find? (fun p => p.1 == q.1) = some q := by
  induction l with
  | nil => cases hq
  | cons a l ih =>
    rw [List.map_cons, List.nodup_cons] at hnd
    by_cases ha : a.1 = q.1
    · have haq : a = q := by
        rcases List.mem_cons.mp hq with h | h
        · exact h.symm
        · exact absurd (ha ▸ List.mem_map_of_mem Prod.fst h) hnd.1
      rw [List.find?_cons_of_pos _ (by simp [ha])]
      rw [haq]
    · have hql : q ∈ l := by
        rcases List.mem_cons.mp hq with h | h
        · exact absurd (h ▸ rfl) ha
        · exact h
      rw [List.find?_cons_of_neg _ (by simp [ha])]
      exact ih hql hnd.2

/-- C1 fails on the code: deliver an unexpected transport close to a
connected client with one pending request; handleDisconnect leaves the
pending map untouched and settles no promise, so the pending request is
neither rejected nor removed. -/
theorem C1_cex_disconnect_not_flushed :
    (clientStep statePending1 ClientEvent.transportClosed).pending = [("req_1_7", 0)] ∧
    (clientStep statePending1 ClientEvent.transportClosed).pending ≠ [] ∧
    (clientStep statePending1 ClientEvent.transportClosed).resolutions = [] :=
  ⟨rfl, by decide, rfl⟩

/-- C1 (corrected): on an unexpected connection close, handleDisconnect
does not reject or remove any pending request and cancels no timer — it
only nulls the transport and handles reconnection scheduling.  A pending
caller is retired later by its own request timeout, which is still armed
and, when it fires, rejects that caller with "Request timeout". -/
theorem C1_amended_disconnect_keeps_pending (s : ClientState) (id : String) (t : Nat)
    (hWF : ClientWF s) (hp : (id, t) ∈ s.pending) :
    (handleDisconnect s).pending = s.pending ∧
    (handleDisconnect s).resolutions = s.resolutions ∧
    (handleDisconnect s).activeTimers = s.activeTimers ∧
    (fireTimeout (handleDisconnect s) t).resolutions =
      s.resolutions ++ [(id, t, Outcome.rejectedErr "Request timeout")] := by
  obtain ⟨hk, hsnd, hact, hnd, hlt, hle⟩ := hWF
  have hfields : (handleDisconnect s).pending = s.pending ∧
      (handleDisconnect s).resolutions = s.resolutions ∧
      (handleDisconnect s).activeTimers = s.activeTimers := by
    unfold handleDisconnect
    split <;> exact ⟨rfl, rfl, rfl⟩
  obtain ⟨hp1, hp2, hp3⟩ := hfields
  have hq : ((t, id) : Nat × String) ∈ s.activeTimers := hact (id, t) hp
  have hfind : s.activeTimers.find? (fun p => p.1 == t) = some (t, id) := by
    simpa using find_handle_eq s.activeTimers (t, id) hq hnd
  refine ⟨hp1, hp2, hp3, ?_⟩
  unfold fireTimeout
  rw [hp3, hfind, hp2]

/-- Witness for C1 (corrected) on the concrete state with pending request
req_1_7 and timer handle 0. -/
theorem C1_amended_disconnect_keeps_pending_witness :
    ClientWF statePending1 ∧ (("req_1_7", 0) ∈ statePending1.pending) ∧
    ((handleDisconnect statePending1).pending = statePending1.pending ∧
     (handleDisconnect statePending1).resolutions = statePending1.resolutions ∧
     (handleDisconnect statePending1).activeTimers = statePending1.activeTimers ∧
     (fireTimeout (handleDisconnect statePending1) 0).resolutions =
       statePending1.resolutions ++ [("req_1_7", 0, Outcome.rejectedErr "Request timeout")]) :=
  ⟨by unfold ClientWF; decide, by decide,
    C1_amended_disconnect_keeps_pending statePending1 "req_1_7" 0
      (by unfold ClientWF; decide) (by decide)⟩

/-- C3 fails on the code: starting from a connected idle client, the
owner calls close(); the close event of the closed socket then fires and
runs handleDisconnect, which schedules a reconnection attempt after
RECONNECT_DELAY — so an explicit close() is followed by a reconnection
attempt. -/
theorem C3_cex_close_then_reconnect :
    (clientRun stateIdle [ClientEvent.ownerClose, ClientEvent.transportClosed]).reconnectTimers
      = [RECONNECT_DELAY] ∧
    (clientRun stateIdle [ClientEvent.ownerClose, ClientEvent.transportClosed]).reconnectsScheduled
      = 1 :=
  ⟨rfl, rfl⟩

/-- C3 (corrected): close() nulls the transport (and rejects pending
requests), but it does not prevent reconnection: it leaves a close event
of the old socket queued, and when that event fires handleDisconnect
runs; whenever the attempt counter is below MAX_RECONNECT_ATTEMPTS this
schedules a reconnection attempt. -/
theorem C3_amended_close_does_not_prevent_reconnect (s : ClientState) (w : WsReadyState)
    (hw : s.ws = some w) (hlt : s.reconnectAttempts < MAX_RECONNECT_ATTEMPTS) :
    (clientStep s ClientEvent.ownerClose).ws = none ∧
    (clientStep s ClientEvent.ownerClose).closeQueued = s.closeQueued + 1 ∧
    (clientStep s ClientEvent.ownerClose).reconnectTimers = s.reconnectTimers ∧
    (clientStep (clientStep s ClientEvent.ownerClose) ClientEvent.transportClosed).reconnectsScheduled
      = s.reconnectsScheduled + 1 ∧
    (clientStep (clientStep s ClientEvent.ownerClose) ClientEvent.transportClosed).reconnectTimers
      = s.reconnectTimers ++ [RECONNECT_DELAY] := by
  have hclose : clientStep s ClientEvent.ownerClose =
      { s with
        ws := none
        closeQueued := s.closeQueued + 1
        activeTimers := s.activeTimers.filter (fun q => ! s.pending.any fun p => p.2 == q.1)
        resolutions := s.resolutions ++
          (s.pending.map fun p => (p.1, p.2, Outcome.rejectedErr "Connection closed"))
        pending := [] } := by
    unfold clientStep closeClient
    rw [hw]
  rw [hclose]
  refine ⟨rfl, rfl, rfl, ?_, ?_⟩ <;>
    simp [clientStep, handleDisconnect, hlt]

/-- Witness for C3 (corrected) on the connected idle client. -/
theorem C3_amended_close_does_not_prevent_reconnect_witness :
    stateIdle.ws = some WsReadyState.OPEN ∧
    stateIdle.reconnectAttempts < MAX_RECONNECT_ATTEMPTS ∧
    ((clientStep stateIdle ClientEvent.ownerClose).ws = none ∧
     (clientStep stateIdle ClientEvent.ownerClose).closeQueued = stateIdle.closeQueued + 1 ∧
     (clientStep stateIdle ClientEvent.ownerClose).reconnectTimers = stateIdle.reconnectTimers ∧
     (clientStep (clientStep stateIdle ClientEvent.ownerClose) ClientEvent.transportClosed).reconnectsScheduled
       = stateIdle.reconnectsScheduled + 1 ∧
     (clientStep (clientStep stateIdle ClientEvent.ownerClose) ClientEvent.transportClosed).reconnectTimers
       = stateIdle.reconnectTimers ++ [RECONNECT_DELAY]) :=
  ⟨rfl, by decide,
    C3_amended_close_does_not_prevent_reconnect stateIdle WsReadyState.OPEN rfl (by decide)⟩

/-- Helper: handleDisconnect preserves the reconnection budget
reconnectsScheduled + (MAX_RECONNECT_ATTEMPTS - reconnectAttempts). -/
theorem reconnectBudget_handleDisconnect (s : ClientState) :
    reconnectBudget (handleDisconnect s) = reconnectBudget s := by
  unfold handleDisconnect reconnectBudget
  by_cases h : s.reconnectAttempts < MAX_RECONNECT_ATTEMPTS <;> simp [h]
  omega

/-- Helper: every event except a successful open preserves the
reconnection budget. -/
theorem reconnectBudget_step (s : ClientState) (e : ClientEvent)
    (he : e ≠ ClientEvent.opened) :
    reconnectBudget (clientStep s e) = reconnectBudget s := by
  cases e with
  | sendReq c a now =>
    unfold clientStep sendRequest
    by_cases h : s.ws ≠ some WsReadyState.OPEN <;> simp [h, reconnectBudget]
  | recvMsg m =>
    cases m with
    | none => simp [clientStep, handleMessage, reconnectBudget]
    | some r =>
      unfold clientStep handleMessage
      cases h : mapGet s.pending r.id <;> simp [h, reconnectBudget]
  | timerFires t =>
    unfold clientStep fireTimeout
    cases h : s.activeTimers.find? (fun q => q.1 == t) <;> simp [h, reconnectBudget]
  | transportClosed =>
    unfold clientStep
    by_cases h : s.closeQueued > 0
    · rw [if_pos h, reconnectBudget_handleDisconnect]
      rfl
    · rw [if_neg h]
      cases hws : s.ws with
      | some w => simp only [hws]; rw [reconnectBudget_handleDisconnect]
      | none => simp only [hws]
  | ownerClose =>
    have h := closeClient_reconnect s
    simp [clientStep, reconnectBudget, h.1, h.2.1]
  | opened => exact absurd rfl he
  | reconnectTimerFires =>
    unfold clientStep
    cases hr : s.reconnectTimers <;> simp [hr, connectClient, reconnectBudget]

/-- Helper: the reconnection budget is constant along any trace without a
successful open. -/
theorem reconnectBudget_run (es : List ClientEvent) :
    ∀ s : ClientState, ClientEvent.opened ∉ es →
      reconnectBudget (clientRun s es) = reconnectBudget s := by
  induction es with
  | nil => intro s _; rfl
  | cons e es ih =>
    intro s hno
    rw [List.mem_cons, not_or] at hno
    rw [clientRun, ih _ hno.2, reconnectBudget_step s e (fun hh => hno.1 hh.symm)]

/-- C4: after an unexpected close, handleDisconnect schedules a
reconnection attempt after RECONNECT_DELAY (1000 ms) and increments the
attempt counter while it is below MAX_RECONNECT_ATTEMPTS (5); at the
bound it only logs the terminal failure (no throw, nothing scheduled); a
successful (re)connection resets the attempt counter to 0; and along any
trace without a successful open, at most
MAX_RECONNECT_ATTEMPTS - reconnectAttempts further attempts are ever
scheduled — at most 5 for a fresh client. -/
theorem C4_bounded_reconnection (s : ClientState) (es : List ClientEvent)
    (hno : ClientEvent.opened ∉ es) :
    (s.reconnectAttempts < MAX_RECONNECT_ATTEMPTS →
      handleDisconnect s = { s with
        ws := none
        reconnectAttempts := s.reconnectAttempts + 1
        log := s.log ++ ["Attempting to reconnect"]
        reconnectTimers := s.reconnectTimers ++ [RECONNECT_DELAY]
        reconnectsScheduled := s.reconnectsScheduled + 1 }) ∧
    (MAX_RECONNECT_ATTEMPTS ≤ s.reconnectAttempts →
      handleDisconnect s = { s with
        ws := none
        log := s.log ++ ["Max reconnection attempts reached"] }) ∧
    (handleOpen (connectClient s)).reconnectAttempts = 0 ∧
    (clientRun s es).reconnectsScheduled ≤
      s.reconnectsScheduled + (MAX_RECONNECT_ATTEMPTS - s.reconnectAttempts) := by
  refine ⟨fun h => by simp [handleDisconnect, h],
    fun h => by simp [handleDisconnect, Nat.not_lt.mpr h], ?_, ?_⟩
  · simp [handleOpen, connectClient]
  · have hb := reconnectBudget_run es s hno
    unfold reconnectBudget at hb
    omega

/-- Witness for C4 on the fresh idle client and a trace of two unexpected
closes. -/
theorem C4_bounded_reconnection_witness :
    ClientEvent.opened ∉ [ClientEvent.transportClosed, ClientEvent.transportClosed] ∧
    ((stateIdle.reconnectAttempts < MAX_RECONNECT_ATTEMPTS →
      handleDisconnect stateIdle = { stateIdle with
        ws := none
        reconnectAttempts := stateIdle.reconnectAttempts + 1
        log := stateIdle.log ++ ["Attempting to reconnect"]
        reconnectTimers := stateIdle.reconnectTimers ++ [RECONNECT_DELAY]
        reconnectsScheduled := stateIdle.reconnectsScheduled + 1 }) ∧
    (MAX_RECONNECT_ATTEMPTS ≤ stateIdle.reconnectAttempts →
      handleDisconnect stateIdle = { stateIdle with
        ws := none
        log := stateIdle.log ++ ["Max reconnection attempts reached"] }) ∧
    (handleOpen (connectClient stateIdle)).reconnectAttempts = 0 ∧
    (clientRun stateIdle [ClientEvent.transportClosed, ClientEvent.transportClosed]).reconnectsScheduled ≤
      stateIdle.reconnectsScheduled +
        (MAX_RECONNECT_ATTEMPTS - stateIdle.reconnectAttempts)) :=
  ⟨by simp,
    C4_bounded_reconnection stateIdle
      [ClientEvent.transportClosed, ClientEvent.transportClosed] (by simp)⟩

/-!
### Claim C2: helper lemmas on the pending map and the timers
-/

/-- Helper: setting a key that is already present keeps the key list. -/
theorem mapSet_fst_of_contains (m : List (String × Nat)) (k : String) (v : Nat)
    (h : (m.any fun p => p.1 == k) = true) :
    (mapSet m k v).map Prod.fst = m.map Prod.fst := by
  unfold mapSet
  rw [if_pos h, List.map_map]
  refine List.map_congr_left fun p hp => ?_
  by_cases hpk : (p.1 == k) = true
  · have hk : p.1 = k := by simpa using hpk
    simp [Function.comp, hpk, hk]
  · simp [Function.comp, hpk]

/-- Helper: setting an absent key appends the pair. -/
theorem mapSet_of_not_contains (m : List (String × Nat)) (k : String) (v : Nat)
    (h : (m.any fun p => p.1 == k) = false) :
    mapSet m k v = m ++ [(k, v)] := by
  unfold mapSet
  rw [if_neg fun hh => by rw [h] at hh; simp at hh]

/-- Helper: a member of the map after a set is the new pair or an old
member. -/
theorem mapSet_mem (m : List (String × Nat)) (k : String) (v : Nat)
    (p : String × Nat) (hp : p ∈ mapSet m k v) : p = (k, v) ∨ p ∈ m := by
  unfold mapSet at hp
  by_cases h : (m.any fun p => p.1 == k) = true
  · rw [if_pos h] at hp
    rcases List.mem_map.mp hp with ⟨q, hq, hfq⟩
    by_cases hqk : (q.1 == k) = true
    · rw [if_pos hqk] at hfq
      exact Or.inl hfq.symm
    · rw [if_neg hqk] at hfq
      exact Or.inr (hfq ▸ hq)
  · rw [if_neg h] at hp
    rcases List.mem_append.mp hp with h2 | h2
    · exact Or.inr h2
    · exact Or.inl (by simpa using h2)

/-- Helper: replacing the value at one key by a fresh value keeps the
values pairwise distinct. -/
theorem snd_nodup_aux (k : String) (v : Nat) :
    ∀ m : List (String × Nat), (m.map Prod.fst).Nodup → (m.map Prod.snd).Nodup →
      (∀ p ∈ m, p.2 ≠ v) →
      (m.map fun p => if p.1 == k then v else p.2).Nodup := by
  intro m
  induction m with
  | nil => intro _ _ _; simp
  | cons a m ih =>
    intro hfst hsnd hv
    rw [List.map_cons, List.nodup_cons] at hfst hsnd
    rw [List.map_cons, List.nodup_cons]
    by_cases ha : (a.1 == k) = true
    · refine ⟨?_, ih hfst.2 hsnd.2 fun p hp => hv p (List.mem_cons_of_mem a hp)⟩
      rw [if_pos ha]
      intro hvmem
      rcases List.mem_map.mp hvmem with ⟨p, hp, hfp⟩
      by_cases hpk : (p.1 == k) = true
      · have hak : a.1 = k := by simpa using ha
        have hpk2 : p.1 = k := by simpa using hpk
        exact hfst.1 (by rw [hak, ← hpk2]; exact List.mem_map_of_mem Prod.fst hp)
      · rw [if_neg hpk] at hfp
        exact hv p (List.mem_cons_of_mem a hp) hfp
    · refine ⟨?_, ih hfst.2 hsnd.2 fun p hp => hv p (List.mem_cons_of_mem a hp)⟩
      rw [if_neg ha]
      intro hmem
      rcases List.mem_map.mp hmem with ⟨p, hp, hfp⟩
      by_cases hpk : (p.1 == k) = true
      · rw [if_pos hpk] at hfp
        exact hv a (List.mem_cons_self a m) hfp.symm
      · rw [if_neg hpk] at hfp
        exact hsnd.1 (hfp ▸ List.mem_map_of_mem Prod.snd hp)

/-- Helper: a set with a timer handle that no current entry uses keeps
the stored handles pairwise distinct. -/
theorem mapSet_snd_nodup (m : List (String × Nat)) (k : String) (v : Nat)
    (hfst : (m.map Prod.fst).Nodup) (hsnd : (m.map Prod.snd).Nodup)
    (hv : ∀ p ∈ m, p.2 ≠ v) :
    ((mapSet m k v).map Prod.snd).Nodup := by
  by_cases h : (m.any fun p => p.1 == k) = true
  · have he : mapSet m k v = m.map fun p => if p.1 == k then (k, v) else p := by
      unfold mapSet
      rw [if_pos h]
    rw [he, List.map_map]
    have hc : (Prod.snd ∘ fun p : String × Nat => if p.1 == k then (k, v) else p)
        = fun p : String × Nat => if p.1 == k then v else p.2 := by
      funext p
      by_cases hpk : (p.1 == k) = true <;> simp [Function.comp, hpk]
    rw [hc]
    exact snd_nodup_aux k v m hfst hsnd hv
  · rw [mapSet_of_not_contains m k v (eq_false_of_ne_true h), List.map_append,
      List.nodup_append]
    refine ⟨hsnd, by simp, ?_⟩
    intro x hx hx2
    rcases List.mem_map.mp hx with ⟨p, hp, hpx⟩
    have hxv : x = v := by simpa using hx2
    exact hv p hp (hpx.trans hxv)

/-- Helper: a successful pending lookup exhibits the map entry. -/
theorem mapGet_some (m : List (String × Nat)) (k : String) (t2 : Nat)
    (h : mapGet m k = some t2) :
    ∃ q ∈ m, (q.1 == k) = true ∧ q.2 = t2 := by
  unfold mapGet at h
  rcases Option.map_eq_some'.mp h with ⟨q, hq, hq2⟩
  have hbeq : (q.1 == k) = true := by simpa using List.find?_some hq
  exact ⟨q, List.mem_of_find?_eq_some hq, hbeq, hq2⟩

/-- Helper: after deleting a key, looking it up yields nothing. -/
theorem mapGet_delete_self (m : List (String × Nat)) (k : String) :
    mapGet (mapDelete m k) k = none := by
  have hf : (m.filter fun p => p.1 != k).find? (fun p => p.1 == k) = none := by
    rw [List.find?_eq_none]
    intro x hx
    have h2 := (List.mem_filter.mp hx).2
    simp only [bne_iff_ne, ne_eq] at h2
    simp [h2]
  simp [mapGet, mapDelete, hf]

/-- Helper: membership after delete. -/
theorem mapDelete_mem (m : List (String × Nat)) (k : String) (p : String × Nat)
    (hp : p ∈ mapDelete m k) : p ∈ m ∧ p.1 ≠ k := by
  rcases List.mem_filter.mp hp with ⟨h1, h2⟩
  exact ⟨h1, by simpa [bne_iff_ne] using h2⟩

/-- Helper: with pairwise distinct handles, exactly one entry survives a
filter by the handle of a member. -/
theorem filter_snd_singleton (l : List (String × Nat)) (p0 : String × Nat)
    (hsnd : (l.map Prod.snd).Nodup) (hp0 : p0 ∈ l) :
    l.filter (fun p => p.2 == p0.2) = [p0] := by
  induction l with
  | nil => cases hp0
  | cons a l ih =>
    rw [List.map_cons, List.nodup_cons] at hsnd
    rcases List.mem_cons.mp hp0 with h | h
    · subst h
      rw [List.filter_cons_of_pos (by simp)]
      have hnil : l.filter (fun p => p.2 == p0.2) = [] := by
        rw [List.filter_eq_nil_iff]
        intro x hx hxb
        have hx2 : x.2 = p0.2 := by simpa using hxb
        exact hsnd.1 (hx2 ▸ List.mem_map_of_mem Prod.snd hx)
      rw [hnil]
    · have ha : (a.2 == p0.2) = false := by
        have : a.2 ≠ p0.2 := by
          intro he
          exact hsnd.1 (he ▸ List.mem_map_of_mem Prod.snd h)
        simpa using this
      rw [List.filter_cons_of_neg (by simp [ha])]
      exact ih hsnd.2 h

/-- Helper: handleDisconnect touches neither the pending map, nor the
settled promises, nor the timers, nor the allocation counter. -/
theorem handleDisconnect_fields (s : ClientState) :
    (handleDisconnect s).pending = s.pending ∧
    (handleDisconnect s).resolutions = s.resolutions ∧
    (handleDisconnect s).activeTimers = s.activeTimers ∧
    (handleDisconnect s).nextTimer = s.nextTimer := by
  unfold handleDisconnect
  split <;> exact ⟨rfl, rfl, rfl, rfl⟩

/-!
### Claim C2: well-formedness is preserved by every event
-/

/-- Helper: sendRequest preserves well-formedness. -/
theorem wf_sendRequest (s : ClientState) (c : String) (a : List (String × Val))
    (now : Nat) (hWF : ClientWF s) :
    ClientWF (clientStep s (ClientEvent.sendReq c a now)) := by
  by_cases hc : s.ws ≠ some WsReadyState.OPEN
  · have hid : clientStep s (ClientEvent.sendReq c a now) = s := by
      simp [clientStep, sendRequest, hc]
    rw [hid]
    exact hWF
  · have hstep : clientStep s (ClientEvent.sendReq c a now) = { s with
        requestId := s.requestId + 1
        nextTimer := s.nextTimer + 1
        activeTimers := s.activeTimers ++ [(s.nextTimer, mkRequestId (s.requestId + 1) now)]
        pending := mapSet s.pending (mkRequestId (s.requestId + 1) now) s.nextTimer
        sent := s.sent ++ [⟨mkRequestId (s.requestId + 1) now, c, a⟩] } := by
      simp only [clientStep, sendRequest]
      rw [if_neg hc]
    rw [hstep]
    obtain ⟨hk, hsnd, hact, hnd, hlt, hle⟩ := hWF
    have hfresh : ∀ p ∈ s.pending, p.2 ≠ s.nextTimer := fun p hp =>
      Nat.ne_of_lt (hlt (p.2, p.1) (hact p hp))
    refine ⟨?_, ?_, ?_, ?_, ?_, hle⟩
    · by_cases hany : (s.pending.any fun p => p.1 == mkRequestId (s.requestId + 1) now) = true
      · rw [mapSet_fst_of_contains _ _ _ hany]
        exact hk
      · rw [mapSet_of_not_contains _ _ _ (eq_false_of_ne_true hany), List.map_append,
          List.nodup_append]
        refine ⟨hk, by simp, ?_⟩
        intro x hx hx2
        rcases List.mem_map.mp hx with ⟨p, hp, hpx⟩
        have hxid : x = mkRequestId (s.requestId + 1) now := by simpa using hx2
        have hne := List.any_eq_false.mp (eq_false_of_ne_true hany) p hp
        exact hne (by rw [beq_iff_eq, hpx, hxid])
    · exact mapSet_snd_nodup s.pending _ _ hk hsnd hfresh
    · intro p hp
      rcases mapSet_mem _ _ _ _ hp with rfl | hpm
      · exact List.mem_append_right _ (by simp)
      · exact List.mem_append_left _ (hact p hpm)
    · rw [List.map_append, List.nodup_append]
      refine ⟨hnd, by simp, ?_⟩
      intro x hx hx2
      rcases List.mem_map.mp hx with ⟨q, hq, hqx⟩
      have hxt : x = s.nextTimer := by simpa using hx2
      exact Nat.ne_of_lt (hlt q hq) (by rw [hqx, hxt])
    · intro q hq
      rcases List.mem_append.mp hq with h2 | h2
      · exact Nat.lt_succ_of_lt (hlt q h2)
      · have : q = (s.nextTimer, mkRequestId (s.requestId + 1) now) := by simpa using h2
        rw [this]
        exact Nat.lt_succ_self _

/-- Helper: handleMessage preserves well-formedness. -/
theorem wf_handleMessage (s : ClientState) (m : Option VSCodeResponse)
    (hWF : ClientWF s) : ClientWF (handleMessage s m) := by
  obtain ⟨hk, hsnd, hact, hnd, hlt, hle⟩ := hWF
  cases m with
  | none => exact ⟨hk, hsnd, hact, hnd, hlt, hle⟩
  | some r =>
    cases ho : mapGet s.pending r.id with
    | none =>
      have hid : handleMessage s (some r) = s := by
        simp only [handleMessage]
        rw [ho]
      rw [hid]
      exact ⟨hk, hsnd, hact, hnd, hlt, hle⟩
    | some t2 =>
      have hstep : handleMessage s (some r) = { s with
          activeTimers := s.activeTimers.filter fun q => q.1 != t2
          pending := mapDelete s.pending r.id
          resolutions := s.resolutions ++
            [(r.id, t2,
              if errTruthy r.error then Outcome.rejectedErr (r.error.getD "")
              else Outcome.resolved r.result)] } := by
        simp only [handleMessage]
        rw [ho]
      rw [hstep]
      obtain ⟨q0, hq0mem, hq0id, hq0t⟩ := mapGet_some s.pending r.id t2 ho
      have hsubp : List.Sublist (mapDelete s.pending r.id) s.pending :=
        List.filter_sublist _
      have hsubt : List.Sublist (s.activeTimers.filter fun q => q.1 != t2)
          s.activeTimers := List.filter_sublist _
      refine ⟨List.Nodup.sublist (List.Sublist.map Prod.fst hsubp) hk,
        List.Nodup.sublist (List.Sublist.map Prod.snd hsubp) hsnd,
        ?_,
        List.Nodup.sublist (List.Sublist.map Prod.fst hsubt) hnd,
        ?_, hle⟩
      · intro p hp
        obtain ⟨hpm, hpne⟩ := mapDelete_mem _ _ _ hp
        rw [List.mem_filter]
        refine ⟨hact p hpm, ?_⟩
        rw [bne_iff_ne]
        intro hp2
        have hp2b : p.2 = t2 := hp2
        have hpq : p = q0 :=
          List.inj_on_of_nodup_map hsnd hpm hq0mem (by rw [hq0t]; exact hp2b)
        have hq0r : q0.1 = r.id := by simpa using hq0id
        exact hpne (by rw [hpq, hq0r])
      · intro q hq
        exact hlt q (List.mem_filter.mp hq).1

/-- Helper: a firing timeout preserves well-formedness. -/
theorem wf_fireTimeout (s : ClientState) (t0 : Nat) (hWF : ClientWF s) :
    ClientWF (fireTimeout s t0) := by
  obtain ⟨hk, hsnd, hact, hnd, hlt, hle⟩ := hWF
  cases hf : s.activeTimers.find? (fun q => q.1 == t0) with
  | none =>
    have hid : fireTimeout s t0 = s := by
      unfold fireTimeout
      rw [hf]
    rw [hid]
    exact ⟨hk, hsnd, hact, hnd, hlt, hle⟩
  | some q =>
    have hqmem := List.mem_of_find?_eq_some hf
    have hqt : q.1 = t0 := by simpa using List.find?_some hf
    have hstep : fireTimeout s t0 = { s with
        activeTimers := s.activeTimers.filter fun q2 => q2.1 != t0
        pending := mapDelete s.pending q.2
        resolutions := s.resolutions ++ [(q.2, t0, Outcome.rejectedErr "Request timeout")] } := by
      unfold fireTimeout
      rw [hf]
    rw [hstep]
    have hsubp : List.Sublist (mapDelete s.pending q.2) s.pending :=
      List.filter_sublist _
    have hsubt : List.Sublist (s.activeTimers.filter fun q2 => q2.1 != t0)
        s.activeTimers := List.filter_sublist _
    refine ⟨List.Nodup.sublist (List.Sublist.map Prod.fst hsubp) hk,
      List.Nodup.sublist (List.Sublist.map Prod.snd hsubp) hsnd,
      ?_,
      List.Nodup.sublist (List.Sublist.map Prod.fst hsubt) hnd,
      ?_, hle⟩
    · intro p hp
      obtain ⟨hpm, hpne⟩ := mapDelete_mem _ _ _ hp
      rw [List.mem_filter]
      refine ⟨hact p hpm, ?_⟩
      rw [bne_iff_ne]
      intro hp2
      have hpq : ((p.2, p.1) : Nat × String) = q :=
        List.inj_on_of_nodup_map hnd (hact p hpm) hqmem (by rw [hqt]; exact hp2)
      exact hpne (congrArg Prod.snd hpq)
    · intro q2 hq2
      exact hlt q2 (List.mem_filter.mp hq2).1

/-- Helper: close() preserves well-formedness. -/
theorem wf_closeClient (s : ClientState) (hWF : ClientWF s) :
    ClientWF (closeClient s) := by
  obtain ⟨hk, hsnd, hact, hnd, hlt, hle⟩ := hWF
  have hc := closeClient_reconnect s
  refine ⟨?_, ?_, ?_, ?_, ?_, ?_⟩
  · rw [closeClient_pending]; simp
  · rw [closeClient_pending]; simp
  · rw [closeClient_pending]; simp
  · rw [closeClient_activeTimers]
    exact List.Nodup.sublist (List.Sublist.map Prod.fst (List.filter_sublist _)) hnd
  · intro q hq
    rw [closeClient_activeTimers] at hq
    rw [closeClient_nextTimer]
    exact hlt q (List.mem_filter.mp hq).1
  · rw [hc.1]
    exact hle

/-- Helper: handleDisconnect preserves well-formedness. -/
theorem wf_handleDisconnect (s : ClientState) (hWF : ClientWF s) :
    ClientWF (handleDisconnect s) := by
  obtain ⟨hk, hsnd, hact, hnd, hlt, hle⟩ := hWF
  unfold handleDisconnect
  split
  next h => exact ⟨hk, hsnd, hact, hnd, hlt, h⟩
  next h => exact ⟨hk, hsnd, hact, hnd, hlt, hle⟩

/-- Helper: every event preserves well-formedness. -/
theorem wf_step (s : ClientState) (e : ClientEvent) (hWF : ClientWF s) :
    ClientWF (clientStep s e) := by
  cases e with
  | sendReq c a now => exact wf_sendRequest s c a now hWF
  | recvMsg m => exact wf_handleMessage s m hWF
  | timerFires t => exact wf_fireTimeout s t hWF
  | transportClosed =>
    unfold clientStep
    by_cases h : s.closeQueued > 0
    · rw [if_pos h]
      exact wf_handleDisconnect _ hWF
    · rw [if_neg h]
      cases hws : s.ws with
      | some w => exact wf_handleDisconnect _ hWF
      | none => exact hWF
  | ownerClose => exact wf_closeClient s hWF
  | opened =>
    obtain ⟨hk, hsnd, hact, hnd, hlt, hle⟩ := hWF
    simp only [clientStep]
    unfold handleOpen
    split
    next h => exact ⟨hk, hsnd, hact, hnd, hlt, Nat.zero_le _⟩
    next h => exact ⟨hk, hsnd, hact, hnd, hlt, hle⟩
  | reconnectTimerFires =>
    unfold clientStep
    cases hr : s.reconnectTimers with
    | nil => exact hWF
    | cons d rest => exact hWF

/-!
### Claim C2: every event retires a given record at most once
-/

/-- Helper: one event either leaves the settlement count of the record
with timeout handle t unchanged (and preserves its retirement), or
settles it exactly once — in which case the record was live before and is
retired for good afterwards. -/
theorem step_retire_cases (s : ClientState) (e : ClientEvent) (t : Nat)
    (hWF : ClientWF s) :
    (countRes t (clientStep s e) = countRes t s ∧
      (Retired s t → Retired (clientStep s e) t)) ∨
    (countRes t (clientStep s e) = countRes t s + 1 ∧
      Retired (clientStep s e) t ∧ ¬ Retired s t) := by
  obtain ⟨hk, hsnd, hact, hnd, hlt, hle⟩ := hWF
  cases e with
  | sendReq c a now =>
    left
    by_cases hc : s.ws ≠ some WsReadyState.OPEN
    · have hid : clientStep s (ClientEvent.sendReq c a now) = s := by
        simp [clientStep, sendRequest, hc]
      rw [hid]
      exact ⟨rfl, fun h => h⟩
    · have hstep : clientStep s (ClientEvent.sendReq c a now) = { s with
          requestId := s.requestId + 1
          nextTimer := s.nextTimer + 1
          activeTimers := s.activeTimers ++ [(s.nextTimer, mkRequestId (s.requestId + 1) now)]
          pending := mapSet s.pending (mkRequestId (s.requestId + 1) now) s.nextTimer
          sent := s.sent ++ [⟨mkRequestId (s.requestId + 1) now, c, a⟩] } := by
        simp only [clientStep, sendRequest]
        rw [if_neg hc]
      rw [hstep]
      refine ⟨rfl, fun hR => ?_⟩
      obtain ⟨r1, r2, r3⟩ := hR
      refine ⟨?_, ?_, Nat.lt_succ_of_lt r3⟩
      · intro q hq
        rcases List.mem_append.mp hq with h2 | h2
        · exact r1 q h2
        · have hq2 : q = (s.nextTimer, mkRequestId (s.requestId + 1) now) := by
            simpa using h2
          rw [hq2]
          exact (Nat.ne_of_lt r3).symm
      · intro p hp
        rcases mapSet_mem _ _ _ _ hp with rfl | hpm
        · exact (Nat.ne_of_lt r3).symm
        · exact r2 p hpm
  | recvMsg m =>
    cases m with
    | none =>
      left
      exact ⟨rfl, fun h => h⟩
    | some r =>
      cases ho : mapGet s.pending r.id with
      | none =>
        left
        have hid : clientStep s (ClientEvent.recvMsg (some r)) = s := by
          simp only [clientStep, handleMessage]
          rw [ho]
        rw [hid]
        exact ⟨rfl, fun h => h⟩
      | some t2 =>
        have hstep : clientStep s (ClientEvent.recvMsg (some r)) = { s with
            activeTimers := s.activeTimers.filter fun q => q.1 != t2
            pending := mapDelete s.pending r.id
            resolutions := s.resolutions ++
              [(r.id, t2,
                if errTruthy r.error then Outcome.rejectedErr (r.error.getD "")
                else Outcome.resolved r.result)] } := by
          simp only [clientStep, handleMessage]
          rw [ho]
        obtain ⟨q0, hq0mem, hq0id, hq0t⟩ := mapGet_some s.pending r.id t2 ho
        by_cases ht2 : t2 = t
        · right
          subst ht2
          refine ⟨?_, ⟨?_, ?_, ?_⟩, ?_⟩
          · rw [hstep]
            unfold countRes
            simp [List.filter_append]
          · intro q hq
            rw [hstep] at hq
            simpa [bne_iff_ne] using (List.mem_filter.mp hq).2
          · intro p hp
            rw [hstep] at hp
            obtain ⟨hpm, hpne⟩ := mapDelete_mem _ _ _ hp
            intro hp2
            have hpq : p = q0 :=
              List.inj_on_of_nodup_map hsnd hpm hq0mem (by rw [hq0t]; exact hp2)
            have hq0r : q0.1 = r.id := by simpa using hq0id
            exact hpne (by rw [hpq, hq0r])
          · rw [hstep]
            have hq0lt := hlt (q0.2, q0.1) (hact q0 hq0mem)
            rw [hq0t] at hq0lt
            exact hq0lt
          · intro hR
            exact hR.2.1 q0 hq0mem hq0t
        · left
          constructor
          · rw [hstep]
            unfold countRes
            have hbt : (t2 == t) = false := by simpa using ht2
            simp [List.filter_append, hbt]
          · intro hR
            obtain ⟨r1, r2, r3⟩ := hR
            rw [hstep]
            refine ⟨?_, ?_, r3⟩
            · intro q hq
              exact r1 q (List.mem_filter.mp hq).1
            · intro p hp
              exact r2 p (mapDelete_mem _ _ _ hp).1
  | timerFires t0 =>
    cases hf : s.activeTimers.find? (fun q => q.1 == t0) with
    | none =>
      left
      have hid : clientStep s (ClientEvent.timerFires t0) = s := by
        simp only [clientStep, fireTimeout]
        rw [hf]
      rw [hid]
      exact ⟨rfl, fun h => h⟩
    | some q =>
      have hqmem := List.mem_of_find?_eq_some hf
      have hqt : q.1 = t0 := by simpa using List.find?_some hf
      have hstep : clientStep s (ClientEvent.timerFires t0) = { s with
          activeTimers := s.activeTimers.filter fun q2 => q2.1 != t0
          pending := mapDelete s.pending q.2
          resolutions := s.resolutions ++ [(q.2, t0, Outcome.rejectedErr "Request timeout")] } := by
        simp only [clientStep, fireTimeout]
        rw [hf]
      by_cases ht0 : t0 = t
      · right
        subst ht0
        refine ⟨?_, ⟨?_, ?_, ?_⟩, ?_⟩
        · rw [hstep]
          unfold countRes
          simp [List.filter_append]
        · intro q2 hq2
          rw [hstep] at hq2
          simpa [bne_iff_ne] using (List.mem_filter.mp hq2).2
        · intro p hp
          rw [hstep] at hp
          obtain ⟨hpm, hpne⟩ := mapDelete_mem _ _ _ hp
          intro hp2
          have hpq : ((p.2, p.1) : Nat × String) = q :=
            List.inj_on_of_nodup_map hnd (hact p hpm) hqmem (by rw [hqt]; exact hp2)
          exact hpne (congrArg Prod.snd hpq)
        · rw [hstep]
          have hqlt := hlt q hqmem
          rw [hqt] at hqlt
          exact hqlt
        · intro hR
          exact hR.1 q hqmem hqt
      · left
        constructor
        · rw [hstep]
          unfold countRes
          have hbt : (t0 == t) = false := by simpa using ht0
          simp [List.filter_append, hbt]
        · intro hR
          obtain ⟨r1, r2, r3⟩ := hR
          rw [hstep]
          refine ⟨?_, ?_, r3⟩
          · intro q2 hq2
            exact r1 q2 (List.mem_filter.mp hq2).1
          · intro p hp
            exact r2 p (mapDelete_mem _ _ _ hp).1
  | transportClosed =>
    left
    simp only [clientStep]
    by_cases h : s.closeQueued > 0
    · rw [if_pos h]
      have hf := handleDisconnect_fields { s with closeQueued := s.closeQueued - 1 }
      constructor
      · unfold countRes
        rw [hf.2.1]
      · intro hR
        obtain ⟨r1, r2, r3⟩ := hR
        refine ⟨?_, ?_, ?_⟩
        · rw [hf.2.2.1]; exact r1
        · rw [hf.1]; exact r2
        · rw [hf.2.2.2]; exact r3
    · rw [if_neg h]
      cases hws : s.ws with
      | some w =>
        have hf := handleDisconnect_fields s
        constructor
        · unfold countRes
          rw [hf.2.1]
        · intro hR
          obtain ⟨r1, r2, r3⟩ := hR
          refine ⟨?_, ?_, ?_⟩
          · rw [hf.2.2.1]; exact r1
          · rw [hf.1]; exact r2
          · rw [hf.2.2.2]; exact r3
      | none => exact ⟨rfl, fun h2 => h2⟩
  | ownerClose =>
    simp only [clientStep]
    by_cases hex : ∃ p0 ∈ s.pending, p0.2 = t
    · right
      obtain ⟨p0, hp0, hp0t⟩ := hex
      subst hp0t
      refine ⟨?_, ⟨?_, ?_, ?_⟩, ?_⟩
      · unfold countRes
        rw [closeClient_resolutions, List.filter_append, List.length_append]
        have hmapfil :
            (List.filter (fun r => r.2.1 == p0.2)
              (s.pending.map fun p => (p.1, p.2, Outcome.rejectedErr "Connection closed")))
            = (s.pending.filter fun p => p.2 == p0.2).map
                (fun p => (p.1, p.2, Outcome.rejectedErr "Connection closed")) := by
          rw [List.filter_map]
          rfl
        rw [hmapfil, filter_snd_singleton s.pending p0 hsnd hp0]
        simp
      · intro q hq
        rw [closeClient_activeTimers] at hq
        obtain ⟨hqmem, hqpred⟩ := List.mem_filter.mp hq
        intro hqt
        rw [Bool.not_eq_true'] at hqpred
        have hnone := List.any_eq_false.mp hqpred p0 hp0
        apply hnone
        rw [beq_iff_eq]
        exact hqt.symm
      · intro p hp
        rw [closeClient_pending] at hp
        cases hp
      · rw [closeClient_nextTimer]
        exact hlt (p0.2, p0.1) (hact p0 hp0)
      · intro hR
        exact hR.2.1 p0 hp0 rfl
    · left
      push_neg at hex
      constructor
      · unfold countRes
        rw [closeClient_resolutions, List.filter_append, List.length_append]
        have hnil : (List.filter (fun r => r.2.1 == t)
            (s.pending.map fun p => (p.1, p.2, Outcome.rejectedErr "Connection closed")))
            = [] := by
          rw [List.filter_eq_nil_iff]
          intro a ha hpred
          rcases List.mem_map.mp ha with ⟨p, hp, hpa⟩
          apply hex p hp
          have ha2 : a.2.1 = t := by simpa using hpred
          rw [← hpa] at ha2
          exact ha2
        rw [hnil]
        simp
      · intro hR
        obtain ⟨r1, r2, r3⟩ := hR
        refine ⟨?_, ?_, ?_⟩
        · intro q hq
          rw [closeClient_activeTimers] at hq
          exact r1 q (List.mem_filter.mp hq).1
        · intro p hp
          rw [closeClient_pending] at hp
          cases hp
        · rw [closeClient_nextTimer]
          exact r3
  | opened =>
    left
    simp only [clientStep]
    unfold handleOpen
    split
    next h => exact ⟨rfl, fun h2 => h2⟩
    next h => exact ⟨rfl, fun h2 => h2⟩
  | reconnectTimerFires =>
    left
    simp only [clientStep]
    cases hr : s.reconnectTimers with
    | nil => exact ⟨rfl, fun h2 => h2⟩
    | cons d rest => exact ⟨rfl, fun h2 => h2⟩

/-- Helper: once a record is retired, no later event ever settles it
again. -/
theorem retired_run (es : List ClientEvent) (t : Nat) :
    ∀ s : ClientState, ClientWF s → Retired s t →
      countRes t (clientRun s es) = countRes t s ∧ Retired (clientRun s es) t := by
  induction es with
  | nil => exact fun s _ h => ⟨rfl, h⟩
  | cons e es ih =>
    intro s hWF hR
    rcases step_retire_cases s e t hWF with ⟨hc, hp⟩ | ⟨_, _, hnR⟩
    · obtain ⟨ih1, ih2⟩ := ih (clientStep s e) (wf_step s e hWF) (hp hR)
      exact ⟨ih1.trans hc, ih2⟩
    · exact absurd hR hnR

/-- Helper: along any event trace, a given record is settled at most
once. -/
theorem count_run_le (es : List ClientEvent) (t : Nat) :
    ∀ s : ClientState, ClientWF s →
      countRes t (clientRun s es) ≤ countRes t s + 1 := by
  induction es with
  | nil => exact fun s _ => Nat.le_succ _
  | cons e es ih =>
    intro s hWF
    rcases step_retire_cases s e t hWF with ⟨hc, _⟩ | ⟨hc, hR, _⟩
    · have h2 := ih (clientStep s e) (wf_step s e hWF)
      rw [hc] at h2
      exact h2
    · have h2 := (retired_run es t (clientStep s e) (wf_step s e hWF) hR).1
      exact le_of_eq (h2.trans hc)

/-- C2: for every pending record (identified by its unique timeout
handle t), at most one of matching response, timeout, disconnect or
close settles it across any event trace; a response whose id is not in
the pending map changes nothing at all; a response that does retire its
id removes the id from the map, so a second response for the same id is
a no-op; a cleared timer never fires; and a disconnect settles no
promise. -/
theorem C2_at_most_one_retirement (s : ClientState) (t t0 : Nat)
    (r : VSCodeResponse) (es : List ClientEvent) (hWF : ClientWF s) :
    countRes t (clientRun s es) ≤ countRes t s + 1 ∧
    (mapGet s.pending r.id = none → handleMessage s (some r) = s) ∧
    (mapGet s.pending r.id ≠ none →
      mapGet (handleMessage s (some r)).pending r.id = none) ∧
    (s.activeTimers.find? (fun q => q.1 == t0) = none → fireTimeout s t0 = s) ∧
    (handleDisconnect s).resolutions = s.resolutions := by
  refine ⟨count_run_le es t s hWF, ?_, ?_, ?_, (handleDisconnect_fields s).2.1⟩
  · intro h
    simp only [handleMessage]
    rw [h]
  · intro h
    cases ho : mapGet s.pending r.id with
    | none => exact absurd ho h
    | some t2 =>
      have hstep : (handleMessage s (some r)).pending = mapDelete s.pending r.id := by
        simp only [handleMessage]
        rw [ho]
      rw [hstep]
      exact mapGet_delete_self s.pending r.id
  · intro h
    simp only [fireTimeout]
    rw [h]

/-- Witness for C2: the client with one pending request receives a
matching response, then a duplicate response, then its stale timer
callback; the record is settled exactly once. -/
theorem C2_at_most_one_retirement_witness :
    ClientWF statePending1 ∧
    (countRes 0 (clientRun statePending1
        [ClientEvent.recvMsg (some respPong), ClientEvent.recvMsg (some respPong),
          ClientEvent.timerFires 0]) ≤ countRes 0 statePending1 + 1 ∧
     (mapGet statePending1.pending respUnknown.id = none →
        handleMessage statePending1 (some respUnknown) = statePending1) ∧
     (mapGet statePending1.pending respUnknown.id ≠ none →
        mapGet (handleMessage statePending1 (some respUnknown)).pending respUnknown.id
          = none) ∧
     (statePending1.activeTimers.find? (fun q => q.1 == 3) = none →
        fireTimeout statePending1 3 = statePending1) ∧
     (handleDisconnect statePending1).resolutions = statePending1.resolutions) :=
  ⟨by decide, C2_at_most_one_retirement statePending1 0 3 respUnknown
      [ClientEvent.recvMsg (some respPong), ClientEvent.recvMsg (some respPong),
        ClientEvent.timerFires 0] (by decide)⟩

end VsMcp
